import Mathlib

/-
  Verification of the asynchronous I/O core (aio.c and aio_iocp.c of the
  postgres AIO branch): a shallow embedding of the slot data model, the
  merged-chain completion split, the staging/merge pipeline, the retry and
  completion-dispatch logic, the per-backend concurrency limiter, and the
  completion-port submission path, together with theorems settling the
  specification claims about them.
-/

set_option linter.unusedVariables false

namespace Aio

/-- PgAioAction: the type of AIO (the tagged op-type variant of a slot). -/
inductive PgAioAction
  | invalid
  | nop
  | fsync
  | fsync_wal
  | flush_range
  | read_buffer
  | write_buffer
  | write_wal
  | write_generic
  deriving Repr, DecidableEq

/-- PgAioInProgressFlags: the flag bitset of a slot, one named boolean per
bit of the C enum `PgAioInProgressFlags`. -/
structure PgAioIPFlags where
  unused : Bool := false
  idle : Bool := false
  in_progress : Bool := false
  pending : Bool := false
  inflight : Bool := false
  reaped : Bool := false
  shared_callback_called : Bool := false
  done : Bool := false
  foreign_done : Bool := false
  merge : Bool := false
  retry : Bool := false
  hard_failure : Bool := false
  soft_failure : Bool := false
  shared_failed : Bool := false
  local_callback_called : Bool := false
  posix_aio_returned : Bool := false
  deriving Repr, DecidableEq

/-- The flag state consisting of exactly PGAIOIP_IDLE. -/
def flagsIdle : PgAioIPFlags := { idle := true }

/-- The flag state consisting of exactly PGAIOIP_UNUSED. -/
def flagsUnused : PgAioIPFlags := { unused := true }

/-- PGAIO_MAX_COMBINE: the fixed combine limit for merged chains. -/
def PGAIO_MAX_COMBINE : Nat := 16

/-- PGAIO_SUBMIT_BATCH_SIZE: the submission batch limit. -/
def PGAIO_SUBMIT_BATCH_SIZE : Nat := 256

/-- The uint32 sentinel stored into `owner_id` when a slot is freed
(INVALID_PGPROCNO assigned to a uint32 field). -/
def INVALID_PGPROCNO : Nat := 2 ^ 32 - 1

/-- Errno values used by the completion callbacks (linux values). -/
def EAGAIN : Int := 11

/-- Errno value EINTR. -/
def EINTR : Int := 4

/-- Errno value EOPNOTSUPP. -/
def EOPNOTSUPP : Int := 95

/-- PgAioInProgress: one I/O descriptor (slot) of the shared array.  The
per-op-type parameter union `d` is flattened into one set of fields: every
arm of the union stores its descriptor, offset, length and already-done
count in fields of the same name, so a single copy of each suffices for the
shallow embedding.  `merge_with` (a pointer) is represented by chains being
passed around as explicit lists; `merge_with_set` records whether the
pointer is currently non-null where only that fact matters. -/
structure PgAioInProgress where
  type : PgAioAction
  flags : PgAioIPFlags
  user_referenced : Bool
  system_referenced : Bool
  owner_id : Nat
  result : Int
  generation : Nat
  has_on_completion_local : Bool
  bb : Bool
  merge_with_set : Bool := false
  fd : Int := 0
  offset : Nat := 0
  nbytes : Nat := 0
  already_done : Nat := 0
  buf : Int := 0
  mode : Int := 0
  bufdata : Nat := 0
  no_reorder : Bool := false
  deriving Repr, DecidableEq

/-- Wrapping uint32 decrement: the new value after
`pg_atomic_fetch_sub_u32(&ctr, 1)`. -/
def sub_u32 (x : Nat) : Nat := (x + (2 ^ 32 - 1)) % 2 ^ 32

/-- Wrapping uint32 addition: the new value after
`pg_atomic_add_fetch_u32(&ctr, n)`. -/
def add_u32 (x n : Nat) : Nat := (x + n) % 2 ^ 32

theorem sub_u32_eq_pred {x : Nat} (h0 : 0 < x) (h1 : x < 2 ^ 32) :
    sub_u32 x = x - 1 := by
  unfold sub_u32
  have hx : x + (2 ^ 32 - 1) = (x - 1) + 2 ^ 32 := by omega
  rw [hx, Nat.add_mod_right]
  exact Nat.mod_eq_of_lt (by omega)

theorem sub_u32_add_u32_one {x : Nat} (h1 : x < 2 ^ 32) :
    sub_u32 (add_u32 x 1) = x := by
  unfold sub_u32 add_u32
  rw [Nat.mod_add_mod]
  have hx : x + 1 + (2 ^ 32 - 1) = x + 2 ^ 32 := by omega
  rw [hx, Nat.add_mod_right]
  exact Nat.mod_eq_of_lt h1

/-
  pgaio_uncombine_one: splitting a merged chain's single kernel result back
  into per-op results.  The C function walks the chain `io, io->merge_with,
  ...` keeping `running_result`; each member whose declared length fits the
  remainder gets its full length, the first that does not gets the
  remainder, later members get zero; a negative head result is copied to
  every member.  The arithmetic acts the same way for all four mergeable op
  types (read_buffer / write_buffer / write_wal / write_generic), each via
  its own union arm of the same shape; other types hit
  `elog(PANIC, "merge for %d not supported yet")`.
-/

/-- The per-member result assignment of `pgaio_uncombine_one`, abstracted to
the list of declared lengths.  `origResult` is the head's kernel result,
the first argument of the recursion is `running_result`. -/
def pgaio_assign_results (origResult : Int) : Int → List Nat → List Int
  | _, [] => []
  | runningResult, n :: rest =>
    if origResult < 0 then
      origResult :: pgaio_assign_results origResult runningResult rest
    else if (n : Int) ≤ runningResult then
      (n : Int) :: pgaio_assign_results origResult (runningResult - (n : Int)) rest
    else
      runningResult :: pgaio_assign_results origResult 0 rest

theorem pgaio_assign_results_length (origResult running : Int) (lens : List Nat) :
    (pgaio_assign_results origResult running lens).length = lens.length := by
  induction lens generalizing running with
  | nil => rfl
  | cons n rest ih =>
    unfold pgaio_assign_results
    split
    · simpa using ih running
    · split
      · simpa using ih (running - (n : Int))
      · simpa using ih 0

theorem pgaio_assign_results_sum (origResult : Int) (lens : List Nat)
    (running : Int) (hor : 0 ≤ origResult) (hr : 0 ≤ running) :
    (pgaio_assign_results origResult running lens).sum =
      min running ((lens.sum : Nat) : Int) := by
  induction lens generalizing running with
  | nil =>
    simp [pgaio_assign_results]
    omega
  | cons n rest ih =>
    unfold pgaio_assign_results
    rw [if_neg (by omega)]
    by_cases hle : (n : Int) ≤ running
    · rw [if_pos hle]
      simp only [List.sum_cons, Nat.cast_add]
      rw [ih (running - (n : Int)) (by omega)]
      omega
    · rw [if_neg hle]
      simp only [List.sum_cons, Nat.cast_add]
      rw [ih 0 le_rfl]
      omega

theorem pgaio_assign_results_zero (origResult : Int) (lens : List Nat)
    (hor : 0 ≤ origResult) :
    ∀ x ∈ pgaio_assign_results origResult 0 lens, x = 0 := by
  induction lens with
  | nil => simp [pgaio_assign_results]
  | cons n rest ih =>
    unfold pgaio_assign_results
    rw [if_neg (by omega)]
    intro x hx
    by_cases hn : (n : Int) ≤ 0
    · have hn0 : n = 0 := by omega
      subst hn0
      rw [if_pos hn] at hx
      norm_num at hx
      rcases hx with h | h
      · exact h
      · exact ih x h
    · rw [if_neg hn] at hx
      rcases List.mem_cons.mp hx with h | h
      · exact h
      · exact ih x h

theorem pgaio_assign_results_zero_getD (origResult : Int) (lens : List Nat)
    (hor : 0 ≤ origResult) (k : Nat) :
    (pgaio_assign_results origResult 0 lens).getD k 0 = 0 := by
  by_cases hk : k < (pgaio_assign_results origResult 0 lens).length
  · rw [List.getD_eq_getElem _ _ hk]
    exact pgaio_assign_results_zero origResult lens hor _ (List.getElem_mem hk)
  · exact List.getD_eq_default _ _ (by omega)

theorem pgaio_assign_results_getD (origResult : Int) (lens : List Nat)
    (running : Int) (hor : 0 ≤ origResult) (hr : 0 ≤ running) :
    ∀ i, i < lens.length →
      ((pgaio_assign_results origResult running lens).getD i 0 =
          ((lens.getD i 0 : Nat) : Int) ∨
        ((pgaio_assign_results origResult running lens).getD i 0 <
            ((lens.getD i 0 : Nat) : Int) ∧
          ∀ j, i < j →
            (pgaio_assign_results origResult running lens).getD j 0 = 0)) := by
  induction lens generalizing running with
  | nil => intro i hi; simp at hi
  | cons n rest ih =>
    intro i hi
    unfold pgaio_assign_results
    rw [if_neg (by omega)]
    by_cases hle : (n : Int) ≤ running
    · rw [if_pos hle]
      match i with
      | 0 => left; simp
      | i' + 1 =>
        have hi' : i' < rest.length := by simpa using hi
        rcases ih (running - (n : Int)) (by omega) i' hi' with h | ⟨h1, h2⟩
        · left; simpa using h
        · right
          constructor
          · simpa using h1
          · intro j hj
            match j with
            | 0 => omega
            | j' + 1 =>
              simp only [List.getD_cons_succ]
              exact h2 j' (by omega)
    · rw [if_neg hle]
      match i with
      | 0 =>
        right
        constructor
        · simpa using hle
        · intro j hj
          match j with
          | 0 => omega
          | j' + 1 =>
            simp only [List.getD_cons_succ]
            exact pgaio_assign_results_zero_getD origResult rest hor j'
      | i' + 1 =>
        simp only [List.getD_cons_succ]
        have hz := pgaio_assign_results_zero_getD origResult rest hor i'
        by_cases h0 : rest.getD i' 0 = 0
        · left
          rw [hz, h0]
          norm_num
        · right
          refine ⟨?_, ?_⟩
          · rw [hz]
            have : 0 < rest.getD i' 0 := Nat.pos_of_ne_zero h0
            exact_mod_cast this
          · intro j hj
            match j with
            | 0 => omega
            | j' + 1 =>
              simp only [List.getD_cons_succ]
              exact pgaio_assign_results_zero_getD origResult rest hor j'

/-- The op types the completion split supports; any other chain member hits
`elog(PANIC, "merge for %d not supported yet")`. -/
def mergeableType (a : PgAioAction) : Bool :=
  match a with
  | .read_buffer | .write_buffer | .write_wal | .write_generic => true
  | _ => false

/-- The switch body of `pgaio_uncombine_one` for one chain member: the
four mergeable cases have identical bodies over the corresponding union
arm's `nbytes`; the default branch PANICs (`none`).  Returns the member's
assigned result and the updated `running_result`. -/
def pgaio_uncombine_assign_one (origResult runningResult : Int)
    (cur : PgAioInProgress) : Option (Int × Int) :=
  if mergeableType cur.type then
    (if origResult < 0 then some (origResult, runningResult)
     else if (cur.nbytes : Int) ≤ runningResult then
       some ((cur.nbytes : Int), runningResult - (cur.nbytes : Int))
     else some (runningResult, 0))
  else none

/-- The walk of `pgaio_uncombine_one` over `io` and its `merge_with`
successors: assigns each member's result, clears `merge_with`, and flips
flags (the head only loses MERGE; each later member also loses INFLIGHT
and gains REAPED, being spliced into the reaped list after its
predecessor). -/
def pgaio_uncombine_one_go (origResult : Int) :
    Int → Bool → List PgAioInProgress → Option (List PgAioInProgress)
  | _, _, [] => some []
  | running, isHead, cur :: rest =>
    (pgaio_uncombine_assign_one origResult running cur).bind fun rr =>
      (pgaio_uncombine_one_go origResult rr.2 false rest).map fun rest' =>
        let newFlags :=
          if isHead then { cur.flags with merge := false }
          else { cur.flags with merge := false, inflight := false, reaped := true }
        { cur with result := rr.1, merge_with_set := false, flags := newFlags } :: rest'

/-- `pgaio_uncombine_one(io)`: the chain is `io` followed by its
`merge_with` successors; the head's `result` seeds both `orig_result`
and `running_result`. -/
def pgaio_uncombine_one (chain : List PgAioInProgress) :
    Option (List PgAioInProgress) :=
  match chain with
  | [] => some []
  | head :: _ => pgaio_uncombine_one_go head.result head.result true chain

theorem pgaio_uncombine_one_go_results (origResult : Int)
    (chain : List PgAioInProgress) :
    ∀ (running : Int) (isHead : Bool),
      (∀ s ∈ chain, mergeableType s.type = true) →
      ∃ out, pgaio_uncombine_one_go origResult running isHead chain = some out ∧
        out.map (fun s => s.result) =
          pgaio_assign_results origResult running
            (chain.map (fun s => s.nbytes)) := by
  induction chain with
  | nil => intro running isHead _; exact ⟨[], rfl, rfl⟩
  | cons cur rest ih =>
    intro running isHead h
    have hcur : mergeableType cur.type = true := h cur (List.mem_cons_self _ _)
    have hrest : ∀ s ∈ rest, mergeableType s.type = true :=
      fun s hs => h s (List.mem_cons_of_mem _ hs)
    unfold pgaio_uncombine_one_go pgaio_uncombine_assign_one
    rw [hcur]
    simp only [if_true]
    by_cases hneg : origResult < 0
    · rw [if_pos hneg]
      obtain ⟨out, hout, hmap⟩ := ih running false hrest
      simp only [Option.some_bind, hout, Option.map_some']
      refine ⟨_, rfl, ?_⟩
      simp only [List.map_cons]
      conv_rhs => rw [pgaio_assign_results]
      rw [if_pos hneg, hmap]
    · rw [if_neg hneg]
      by_cases hle : ((cur.nbytes : Nat) : Int) ≤ running
      · rw [if_pos hle]
        obtain ⟨out, hout, hmap⟩ := ih (running - (cur.nbytes : Int)) false hrest
        simp only [Option.some_bind, hout, Option.map_some']
        refine ⟨_, rfl, ?_⟩
        simp only [List.map_cons]
        conv_rhs => rw [pgaio_assign_results]
        rw [if_neg hneg, if_pos hle, hmap]
      · rw [if_neg hle]
        obtain ⟨out, hout, hmap⟩ := ih 0 false hrest
        simp only [Option.some_bind, hout, Option.map_some']
        refine ⟨_, rfl, ?_⟩
        simp only [List.map_cons]
        conv_rhs => rw [pgaio_assign_results]
        rw [if_neg hneg, if_neg hle, hmap]

theorem pgaio_assign_results_neg (origResult : Int) (hneg : origResult < 0) :
    ∀ (running : Int) (lens : List Nat),
      ∀ x ∈ pgaio_assign_results origResult running lens, x = origResult := by
  intro running lens
  induction lens generalizing running with
  | nil => simp [pgaio_assign_results]
  | cons n rest ih =>
    unfold pgaio_assign_results
    rw [if_pos hneg]
    intro x hx
    rcases List.mem_cons.mp hx with h | h
    · exact h
    · exact ih running x h

/-- Claim C2: for every merged chain whose head has result R ≥ 0 and whose
members declare lengths L1..Ln, `pgaio_uncombine_one` assigns each member a
result such that the sum of assigned results equals min(R, ΣLi) and the
assignment has the prefix property: each Li is either fully assigned, or a
truncated one with every later member assigned zero; when R < 0, every
member is assigned the same negative result R. -/
theorem pgaio_uncombine_one_split_correct
    (head : PgAioInProgress) (tail : List PgAioInProgress)
    (hmerge : ∀ s ∈ head :: tail, mergeableType s.type = true) :
    ∃ out, pgaio_uncombine_one (head :: tail) = some out ∧
      (0 ≤ head.result →
        ((out.map (fun s => s.result)).sum =
            min head.result
              ((((head :: tail).map (fun s => s.nbytes)).sum : Nat) : Int) ∧
          ∀ i, i < (head :: tail).length →
            ((out.map (fun s => s.result)).getD i 0 =
                ((((head :: tail).map (fun s => s.nbytes)).getD i 0 : Nat) : Int) ∨
              ((out.map (fun s => s.result)).getD i 0 <
                  ((((head :: tail).map (fun s => s.nbytes)).getD i 0 : Nat) : Int) ∧
                ∀ j, i < j → (out.map (fun s => s.result)).getD j 0 = 0)))) ∧
      (head.result < 0 → ∀ s ∈ out, s.result = head.result) := by
  obtain ⟨out, hout, hmap⟩ :=
    pgaio_uncombine_one_go_results head.result (head :: tail)
      head.result true hmerge
  refine ⟨out, hout, ?_, ?_⟩
  · intro hpos
    constructor
    · rw [hmap]
      rw [pgaio_assign_results_sum head.result _ head.result hpos hpos]
    · intro i hi
      rw [hmap]
      exact pgaio_assign_results_getD head.result _ head.result hpos hpos i
        (by simpa using hi)
  · intro hneg s hs
    have hmem : s.result ∈ out.map (fun s => s.result) :=
      List.mem_map_of_mem _ hs
    rw [hmap] at hmem
    exact pgaio_assign_results_neg head.result hneg head.result _ _ hmem

/-- A concrete chain head used by witnesses: a read of 8192 bytes whose
merged chain got a combined kernel result of 10000. -/
def sampleHead : PgAioInProgress :=
  { type := .read_buffer,
    flags := { in_progress := true, reaped := true, merge := true },
    user_referenced := true, system_referenced := true, owner_id := 0,
    result := 10000, generation := 1, has_on_completion_local := false,
    bb := false, nbytes := 8192, merge_with_set := true }

/-- A concrete chain tail member: the second 8192-byte read of the chain. -/
def sampleTail : PgAioInProgress :=
  { type := .read_buffer,
    flags := { in_progress := true, inflight := true },
    user_referenced := true, system_referenced := true, owner_id := 0,
    result := 0, generation := 1, has_on_completion_local := false,
    bb := false, nbytes := 8192, offset := 8192 }

theorem pgaio_uncombine_one_split_correct_witness :
    (0 : Int) ≤ sampleHead.result ∧
      pgaio_uncombine_one [sampleHead, sampleTail] ≠ none := by
  refine ⟨by decide, ?_⟩
  obtain ⟨out, hout, -, -⟩ :=
    pgaio_uncombine_one_split_correct sampleHead [sampleTail] (by decide)
  rw [hout]
  simp

/-
  pgaio_uncombine(): walk the reaped list, split each merged chain, and
  decrement the initiator's inflight counter.  A reaped entry is the pair
  of a drained chain head and its `merge_with` tail.  `dlist_foreach_modify`
  (lib/ilist.h) caches the successor node before the loop body runs, so the
  tail slots that `pgaio_uncombine_one` splices in directly after the head
  are not themselves visited by the iteration: the
  `pg_atomic_fetch_sub_u32(&...inflight_count, 1)` runs once per drained
  chain head (matching submission, which adds the number of chain heads).
-/

/-- `pgaio_uncombine()` over the reaped list, returning the flattened list
of split-out slots (in reaped-list order) and the updated per-backend
inflight counters. -/
def pgaio_uncombine :
    List (PgAioInProgress × List PgAioInProgress) → (Nat → Nat) →
    Option (List PgAioInProgress × (Nat → Nat))
  | [], inflight => some ([], inflight)
  | (head, tail) :: rest, inflight =>
    (if head.flags.merge then pgaio_uncombine_one (head :: tail)
     else some [head]).bind fun split =>
      (pgaio_uncombine rest
          (fun b => if b = head.owner_id then sub_u32 (inflight b)
                    else inflight b)).map
        fun r => (split ++ r.1, r.2)

/-- The number of drained chain heads on the reaped list whose initiator is
backend `b`. -/
def chainsOwnedBy (reaped : List (PgAioInProgress × List PgAioInProgress))
    (b : Nat) : Nat :=
  (reaped.filter (fun c => c.1.owner_id == b)).length

/-- `pgaio_io_prepare_submit`: walks `io` and its `merge_with` successors,
flipping each member PENDING → INFLIGHT (list movements not modelled). -/
def pgaio_io_prepare_submit (chain : List PgAioInProgress) :
    List PgAioInProgress :=
  chain.map fun cur =>
    { cur with flags := { cur.flags with pending := false, inflight := true } }

/-- `pgaio_uring_submit`: the submitted batch is a list of chains (one SQE
per chain head); after preparing each chain the backend's inflight counter
is incremented by `nios`, the number of chain heads, in one atomic add. -/
def pgaio_uring_submit (chains : List (List PgAioInProgress))
    (inflight : Nat) : List (List PgAioInProgress) × Nat :=
  (chains.map pgaio_io_prepare_submit, add_u32 inflight chains.length)

theorem pgaio_uncombine_inflight_decrement
    (reaped : List (PgAioInProgress × List PgAioInProgress)) :
    ∀ (inflight : Nat → Nat) (out : List PgAioInProgress)
      (inflightFinal : Nat → Nat) (b : Nat),
      pgaio_uncombine reaped inflight = some (out, inflightFinal) →
      chainsOwnedBy reaped b ≤ inflight b → inflight b < 2 ^ 32 →
      inflightFinal b = inflight b - chainsOwnedBy reaped b := by
  induction reaped with
  | nil =>
    intro inflight out inflightFinal b h _ _
    simp only [pgaio_uncombine, Option.some.injEq, Prod.mk.injEq] at h
    rw [← h.2]
    simp [chainsOwnedBy]
  | cons c rest ih =>
    obtain ⟨head, tail⟩ := c
    intro inflight out inflightFinal b h hle hlt
    unfold pgaio_uncombine at h
    rw [Option.bind_eq_some] at h
    obtain ⟨split, hsplit, h⟩ := h
    rw [Option.map_eq_some'] at h
    obtain ⟨r, hrec, hval⟩ := h
    obtain ⟨out', inflightF'⟩ := r
    injection hval with hval1 hval2
    subst hval2
    by_cases hb : head.owner_id = b
    · have hcount : chainsOwnedBy ((head, tail) :: rest) b =
          chainsOwnedBy rest b + 1 := by
        have hbeq : (head.owner_id == b) = true := beq_iff_eq.mpr hb
        simp [chainsOwnedBy, List.filter_cons, hbeq]
      rw [hcount] at hle ⊢
      have hpos : 0 < inflight b := by omega
      have harg1 : chainsOwnedBy rest b ≤
          (fun b' => if b' = head.owner_id then sub_u32 (inflight b')
            else inflight b') b := by
        show chainsOwnedBy rest b ≤
          if b = head.owner_id then sub_u32 (inflight b) else inflight b
        rw [if_pos hb.symm, sub_u32_eq_pred hpos hlt]
        omega
      have harg2 : (fun b' => if b' = head.owner_id then sub_u32 (inflight b')
          else inflight b') b < 2 ^ 32 := by
        show (if b = head.owner_id then sub_u32 (inflight b) else inflight b) <
          2 ^ 32
        rw [if_pos hb.symm, sub_u32_eq_pred hpos hlt]
        omega
      have hres := ih _ out' inflightF' b hrec harg1 harg2
      show inflightF' b = inflight b - (chainsOwnedBy rest b + 1)
      rw [hres]
      show (if b = head.owner_id then sub_u32 (inflight b) else inflight b) -
          chainsOwnedBy rest b = inflight b - (chainsOwnedBy rest b + 1)
      rw [if_pos hb.symm, sub_u32_eq_pred hpos hlt]
      omega
    · have hcount : chainsOwnedBy ((head, tail) :: rest) b =
          chainsOwnedBy rest b := by
        have hbeq : (head.owner_id == b) = false := beq_eq_false_iff_ne.mpr hb
        simp [chainsOwnedBy, List.filter_cons, hbeq]
      rw [hcount] at hle ⊢
      have hbne : ¬(b = head.owner_id) := fun hh => hb hh.symm
      have harg1 : chainsOwnedBy rest b ≤
          (fun b' => if b' = head.owner_id then sub_u32 (inflight b')
            else inflight b') b := by
        show chainsOwnedBy rest b ≤
          if b = head.owner_id then sub_u32 (inflight b) else inflight b
        rw [if_neg hbne]
        omega
      have harg2 : (fun b' => if b' = head.owner_id then sub_u32 (inflight b')
          else inflight b') b < 2 ^ 32 := by
        show (if b = head.owner_id then sub_u32 (inflight b) else inflight b) <
          2 ^ 32
        rw [if_neg hbne]
        omega
      have hres := ih _ out' inflightF' b hrec harg1 harg2
      show inflightF' b = inflight b - chainsOwnedBy rest b
      rw [hres]
      show (if b = head.owner_id then sub_u32 (inflight b) else inflight b) -
          chainsOwnedBy rest b = inflight b - chainsOwnedBy rest b
      rw [if_neg hbne]

/-- A concrete two-member merged chain head owned by backend 0, as drained
from the kernel with a combined result covering both 8192-byte reads. -/
def c1Head : PgAioInProgress :=
  { type := .read_buffer,
    flags := { in_progress := true, reaped := true, merge := true },
    user_referenced := true, system_referenced := true, owner_id := 0,
    result := 16384, generation := 1, has_on_completion_local := false,
    bb := false, nbytes := 8192, merge_with_set := true }

/-- The tail member of the concrete merged chain of `c1Head`. -/
def c1Tail : PgAioInProgress :=
  { type := .read_buffer,
    flags := { in_progress := true, inflight := true },
    user_referenced := true, system_referenced := true, owner_id := 0,
    result := 0, generation := 1, has_on_completion_local := false,
    bb := false, nbytes := 8192, offset := 8192 }

/-- Claim C1 counterexample: completing a reaped list holding one merged
chain of two slots, with the initiator's inflight counter at 5, splits out
2 slots but leaves the counter at 4, not at 5 - 2 = 3: the counter is
decremented once per chain, not once per split-out slot. -/
theorem pgaio_uncombine_decrement_counterexample :
    ((pgaio_uncombine [(c1Head, [c1Tail])] (fun _ => 5)).map
        (fun r => (r.1.length, r.2 0))) = some (2, 4) ∧ (4 : Nat) ≠ 5 - 2 := by
  exact ⟨by decide, by decide⟩

/-- Claim C1 (amended): during completion dispatch of reaped I/Os, the
initiator's atomic inflight counter is decremented by one per merged chain
(its drained head) — tail slots spliced into the reaped list by the split
are skipped by the cached-successor iteration — matching submission, which
increments the counter by the number of chain heads while flipping every
chain member (tails included) to INFLIGHT; the counter therefore tracks
the number of inflight chain heads, not the number of INFLIGHT slots. -/
theorem pgaio_uncombine_inflight_per_chain :
    (∀ (reaped : List (PgAioInProgress × List PgAioInProgress))
        (inflight : Nat → Nat) (out : List PgAioInProgress)
        (inflightFinal : Nat → Nat) (b : Nat),
        pgaio_uncombine reaped inflight = some (out, inflightFinal) →
        chainsOwnedBy reaped b ≤ inflight b → inflight b < 2 ^ 32 →
        inflightFinal b = inflight b - chainsOwnedBy reaped b) ∧
    (∀ (chains : List (List PgAioInProgress)) (inflight : Nat),
        (pgaio_uring_submit chains inflight).2 =
          add_u32 inflight chains.length ∧
        ∀ c ∈ (pgaio_uring_submit chains inflight).1, ∀ s ∈ c,
          s.flags.inflight = true) := by
  constructor
  · intro reaped inflight out inflightFinal b h hle hlt
    exact pgaio_uncombine_inflight_decrement reaped inflight out
      inflightFinal b h hle hlt
  · intro chains inflight
    refine ⟨rfl, ?_⟩
    intro c hc s hs
    simp only [pgaio_uring_submit, List.mem_map] at hc
    obtain ⟨c0, hc0, hcc⟩ := hc
    rw [← hcc] at hs
    simp only [pgaio_io_prepare_submit, List.mem_map] at hs
    obtain ⟨s0, hs0, hss⟩ := hs
    rw [← hss]

theorem pgaio_uncombine_inflight_per_chain_witness :
    ∃ out f, pgaio_uncombine [(c1Head, [c1Tail])] (fun _ => 5) = some (out, f) ∧
      f 0 = 5 - chainsOwnedBy [(c1Head, [c1Tail])] 0 := by
  have hs : (pgaio_uncombine [(c1Head, [c1Tail])] (fun _ => 5)).isSome = true := rfl
  rcases h : pgaio_uncombine [(c1Head, [c1Tail])] (fun _ => 5) with - | ⟨out, f⟩
  · rw [h] at hs
    simp at hs
  · refine ⟨out, f, rfl, ?_⟩
    exact pgaio_uncombine_inflight_per_chain.1 [(c1Head, [c1Tail])]
      (fun _ => 5) out f 0 h (by decide) (by decide)

/-
  The shared completion callbacks for buffer reads and writes
  (pgaio_complete_read_buffer / pgaio_complete_write_buffer).  Each returns
  the updated slot and the callback's `finished` return value.  The C
  comparison `io->result != (nbytes - already_done)` promotes `result` to
  uint32; it agrees with the plain integer comparison whenever |result| and
  the remaining length are below 2^31, which every buffer I/O satisfies.
-/

/-- `pgaio_complete_read_buffer`: a short read records the progress in
`already_done`, flags SOFT_FAILURE and returns finished=false; a negative
result of -EAGAIN or -EINTR hits
`elog(PANIC, "need to implement retries for failed requests")` (`none`);
any other negative result warns and completes (finished=true, no failure
flag is set here); a full read records `already_done` and completes. -/
def pgaio_complete_read_buffer (io : PgAioInProgress) :
    Option (PgAioInProgress × Bool) :=
  if io.result ≠ (io.nbytes : Int) - (io.already_done : Int) then
    (if io.result < 0 then
      (if io.result = -EAGAIN ∨ io.result = -EINTR then
        none
      else
        some (io, true))
    else
      some
        ({ io with
            flags := { io.flags with soft_failure := true },
            already_done := io.already_done + io.result.toNat },
          false))
  else
    some ({ io with already_done := io.already_done + io.result.toNat }, true)

/-- `pgaio_complete_write_buffer`: a short write records the progress in
`already_done`, flags SOFT_FAILURE and returns finished=false; -EAGAIN or
-EINTR flags SOFT_FAILURE and returns finished=false; any other negative
result flags HARD_FAILURE and completes; a full write completes. -/
def pgaio_complete_write_buffer (io : PgAioInProgress) :
    Option (PgAioInProgress × Bool) :=
  if io.result ≠ (io.nbytes : Int) - (io.already_done : Int) then
    (if io.result < 0 then
      (if io.result = -EAGAIN ∨ io.result = -EINTR then
        some ({ io with flags := { io.flags with soft_failure := true } },
          false)
      else
        some ({ io with flags := { io.flags with hard_failure := true } },
          true))
    else
      some
        ({ io with
            flags := { io.flags with soft_failure := true },
            already_done := io.already_done + io.result.toNat },
          false))
  else
    some ({ io with already_done := io.already_done + io.result.toNat }, true)

/-- A reaped buffer read whose kernel result is -EINTR. -/
def c3ReadEintr : PgAioInProgress :=
  { type := .read_buffer, flags := { in_progress := true, reaped := true },
    user_referenced := true, system_referenced := true, owner_id := 0,
    result := -EINTR, generation := 1, has_on_completion_local := false,
    bb := false, nbytes := 8192 }

/-- The same completion on the write-buffer side. -/
def c3WriteEintr : PgAioInProgress := { c3ReadEintr with type := .write_buffer }

/-- Claim C3 (code bug): a buffer-read completion with result -EINTR does
not take the soft-failure path the error-handling design prescribes:
`pgaio_complete_read_buffer` hits `elog(PANIC, "need to implement retries
for failed requests")` (modelled as `none`).  The write-buffer callback
does flag SOFT_FAILURE and return finished=false for the same result, and
a short read (4096 of 8192 bytes) does take the soft path with the
progress recorded in `already_done`. -/
theorem pgaio_complete_read_buffer_eintr_panics :
    pgaio_complete_read_buffer c3ReadEintr = none ∧
    (pgaio_complete_write_buffer c3WriteEintr).map
        (fun r => (r.1.flags.soft_failure, r.2)) = some (true, false) ∧
    (pgaio_complete_read_buffer { c3ReadEintr with result := 4096 }).map
        (fun r => (r.1.flags.soft_failure, r.1.already_done, r.2)) =
      some (true, 4096, false) := by
  exact ⟨by decide, by decide, by decide⟩

/-
  pgaio_io_retry.
-/

/-- The observable outcomes of `pgaio_io_retry`. -/
inductive RetryOutcome
  | warnNonRetryable
  | alreadyRetried
  | requeued (io : PgAioInProgress)
  deriving Repr, DecidableEq

/-- `pgaio_io_retry`: only buffer reads and buffer writes are retryable; a
non-retryable op type gets `elog(WARNING, "non-retryable aio being
retried")` and the function returns.  Under SharedAIOCtlLock the retry
happens only if the slot still carries SHARED_FAILED: the failure/done
flags are cleared, IN_PROGRESS|PENDING|RETRY set, and the slot is removed
from its completion list and re-queued (the fd reopen from the saved tag
does not change the modelled fields). -/
def pgaio_io_retry (io : PgAioInProgress) : RetryOutcome :=
  if io.type = .read_buffer ∨ io.type = .write_buffer then
    (if io.flags.shared_failed then
      .requeued
        { io with
            flags := { io.flags with
                shared_failed := false,
                done := false,
                foreign_done := false,
                shared_callback_called := false,
                local_callback_called := false,
                hard_failure := false,
                soft_failure := false,
                in_progress := true,
                pending := true,
                retry := true } }
    else .alreadyRetried)
  else .warnNonRetryable

/-- A NOP slot flagged SHARED_FAILED entering the retry path. -/
def c4Nop : PgAioInProgress :=
  { type := .nop, flags := { done := true, shared_failed := true },
    user_referenced := true, system_referenced := true, owner_id := 0,
    result := 0, generation := 1, has_on_completion_local := false,
    bb := false }

/-- Claim C4 counterexample: a non-retryable op type entering the retry
path does not abort the process: `pgaio_io_retry` issues
`elog(WARNING, "non-retryable aio being retried")` and simply returns,
leaving the slot untouched and un-queued (outcome `warnNonRetryable`),
rather than failing fatally as the claim states. -/
theorem pgaio_io_retry_nop_warns :
    pgaio_io_retry c4Nop = .warnNonRetryable := by decide

/-- Claim C4 (amended): when `pgaio_io_retry` is invoked on a slot whose
op type is not a buffer read or buffer write, it logs a warning and
returns without retrying; for retryable op types, the retry is performed
only if the slot is still flagged SHARED_FAILED under the central mutex,
so of two concurrent retries of the same slot exactly one re-queues it:
the re-queue clears SHARED_FAILED, and a retry finding SHARED_FAILED
already clear returns without re-queuing. -/
theorem pgaio_io_retry_requires_shared_failed :
    (∀ io : PgAioInProgress,
        ¬(io.type = .read_buffer ∨ io.type = .write_buffer) →
        pgaio_io_retry io = .warnNonRetryable) ∧
    (∀ io : PgAioInProgress,
        (io.type = .read_buffer ∨ io.type = .write_buffer) →
        io.flags.shared_failed = false →
        pgaio_io_retry io = .alreadyRetried) ∧
    (∀ io io' : PgAioInProgress,
        (io.type = .read_buffer ∨ io.type = .write_buffer) →
        io.flags.shared_failed = true →
        pgaio_io_retry io = .requeued io' →
        io'.flags.shared_failed = false ∧ io'.flags.pending = true ∧
          io'.flags.retry = true ∧ io'.flags.in_progress = true ∧
          io'.flags.done = false ∧
          pgaio_io_retry io' = .alreadyRetried) := by
  refine ⟨?_, ?_, ?_⟩
  · intro io h
    unfold pgaio_io_retry
    rw [if_neg h]
  · intro io h h2
    unfold pgaio_io_retry
    rw [if_pos h, if_neg (by rw [h2]; exact Bool.false_ne_true)]
  · intro io io' h h2 hreq
    unfold pgaio_io_retry at hreq
    rw [if_pos h, if_pos h2] at hreq
    injection hreq with hio
    subst hio
    refine ⟨rfl, rfl, rfl, rfl, rfl, ?_⟩
    unfold pgaio_io_retry
    rw [if_pos (by exact h), if_neg (by exact Bool.false_ne_true)]

/-- A shared-failed buffer read entering the retry path. -/
def c4Read : PgAioInProgress :=
  { type := .read_buffer,
    flags := { done := true, shared_failed := true,
               shared_callback_called := true },
    user_referenced := true, system_referenced := true, owner_id := 0,
    result := -EAGAIN, generation := 1, has_on_completion_local := false,
    bb := false, nbytes := 8192 }

theorem pgaio_io_retry_requires_shared_failed_witness :
    ∃ io', pgaio_io_retry c4Read = .requeued io' ∧
      pgaio_io_retry io' = .alreadyRetried := by
  rcases hr : pgaio_io_retry c4Read with - | - | io'
  · exact absurd hr (by decide)
  · exact absurd hr (by decide)
  · obtain ⟨-, -, -, -, -, h6⟩ :=
      pgaio_io_retry_requires_shared_failed.2.2 c4Read io' (by decide)
        (by decide) hr
    exact ⟨io', rfl, h6⟩

/-
  pgaio_io_recycle.
-/

/-- `pgaio_io_recycle`: releases any bounce buffer; if the slot is DONE
(rather than already IDLE), bumps the generation and flips DONE → IDLE;
then clears the completion-note flags
(MERGE, SHARED/LOCAL_CALLBACK_CALLED, RETRY, HARD/SOFT_FAILURE,
POSIX_AIO_RETURNED), resets `result` to 0 and drops the local-callback
pointer.  (`generation` is a uint64; its overflow is unreachable.) -/
def pgaio_io_recycle (io : PgAioInProgress) : PgAioInProgress :=
  let io1 := if io.bb then { io with bb := false } else io
  let io2 :=
    if io1.flags.done then
      { io1 with
          generation := io1.generation + 1,
          flags := { io1.flags with done := false, idle := true } }
    else io1
  { io2 with
      flags := { io2.flags with
          merge := false,
          shared_callback_called := false,
          local_callback_called := false,
          retry := false,
          hard_failure := false,
          soft_failure := false,
          posix_aio_returned := false },
      result := 0,
      has_on_completion_local := false }

/-- Claim C10: recycling a slot in DONE state (local callback already run,
not FOREIGN_DONE, with only completion-note flags besides DONE set, as the
function's assertions demand) increments the generation by exactly one
while moving the slot directly from DONE to IDLE — never through UNUSED —
leaving flags equal to exactly IDLE, result 0, the local-callback pointer
cleared and any bounce buffer released; recycling a slot already IDLE
leaves the generation unchanged. -/
theorem pgaio_io_recycle_done_to_idle :
    (∀ io : PgAioInProgress,
        io.flags.done = true → io.flags.foreign_done = false →
        io.flags.local_callback_called = true →
        io.flags.unused = false → io.flags.idle = false →
        io.flags.in_progress = false → io.flags.pending = false →
        io.flags.inflight = false → io.flags.reaped = false →
        io.flags.merge = false → io.flags.shared_failed = false →
        (pgaio_io_recycle io).generation = io.generation + 1 ∧
          (pgaio_io_recycle io).flags = flagsIdle ∧
          (pgaio_io_recycle io).result = 0 ∧
          (pgaio_io_recycle io).has_on_completion_local = false ∧
          (pgaio_io_recycle io).bb = false) ∧
    (∀ io : PgAioInProgress,
        io.flags.idle = true → io.flags.done = false →
        (pgaio_io_recycle io).generation = io.generation) := by
  constructor
  · intro io hdone hfd hlcb hun hid hip hpe hif hre hmg hshf
    obtain ⟨ty, fl, ur, sr, oid, res, gen, ocl, hbb, mws, fd0, off0, nb0,
      ad0, buf0, md0, bd0, nr0⟩ := io
    obtain ⟨fu, fi, fp, fpe, fif, fre, fscb, fdn, ffd, fmg, frt, fhf, fsf,
      fshf, flcb, fpar⟩ := fl
    have h1 : fdn = true := hdone
    have h2 : ffd = false := hfd
    have h3 : flcb = true := hlcb
    have h4 : fu = false := hun
    have h5 : fi = false := hid
    have h6 : fp = false := hip
    have h7 : fpe = false := hpe
    have h8 : fif = false := hif
    have h9 : fre = false := hre
    have h10 : fmg = false := hmg
    have h11 : fshf = false := hshf
    subst h1 h2 h3 h4 h5 h6 h7 h8 h9 h10 h11
    cases hbb <;> exact ⟨rfl, rfl, rfl, rfl, rfl⟩
  · intro io hid hdone
    obtain ⟨ty, fl, ur, sr, oid, res, gen, ocl, hbb, mws, fd0, off0, nb0,
      ad0, buf0, md0, bd0, nr0⟩ := io
    obtain ⟨fu, fi, fp, fpe, fif, fre, fscb, fdn, ffd, fmg, frt, fhf, fsf,
      fshf, flcb, fpar⟩ := fl
    have h1 : fi = true := hid
    have h2 : fdn = false := hdone
    subst h1 h2
    cases hbb <;> rfl

/-- A DONE write-buffer slot satisfying the recycle preconditions. -/
def c10Done : PgAioInProgress :=
  { type := .write_buffer,
    flags := { done := true, shared_callback_called := true,
               local_callback_called := true },
    user_referenced := true, system_referenced := false, owner_id := 0,
    result := 8192, generation := 7, has_on_completion_local := false,
    bb := true, nbytes := 8192 }

theorem pgaio_io_recycle_done_to_idle_witness :
    (pgaio_io_recycle c10Done).generation = 8 ∧
      (pgaio_io_recycle c10Done).flags = flagsIdle ∧
      (pgaio_io_recycle
        { c10Done with
            generation := 7,
            flags := { idle := true } }).generation = 7 := by
  obtain ⟨hg, hf, -, -, -⟩ := pgaio_io_recycle_done_to_idle.1 c10Done
    rfl rfl rfl rfl rfl rfl rfl rfl rfl rfl rfl
  refine ⟨hg, hf, ?_⟩
  exact pgaio_io_recycle_done_to_idle.2 _ rfl rfl

/-
  The under-lock recycle phase of pgaio_complete_ios (the
  local_recycle_requests loop) and pgaio_prepare_io.
-/

/-- The per-slot routing outcome of the recycle phase of
`pgaio_complete_ios`. -/
inductive CompleteDest
  | toForeignCompleted (slot : PgAioInProgress)
  | toLocalCompleted (slot : PgAioInProgress)
  | toUnused (slot : PgAioInProgress)
  deriving Repr, DecidableEq

/-- One slot of the recycle phase of `pgaio_complete_ios`: a
user-referenced slot drops its system reference and is routed to the
initiator's spinlock-guarded foreign_completed list (flags
REAPED,IN_PROGRESS cleared; DONE|FOREIGN_DONE set) or, when the initiator
is the current backend, to local_completed (flags → DONE); a slot no
longer user-referenced is removed from the owner's issued_abandoned list,
its generation bumped, flags reset to UNUSED, bounce buffer dropped,
fields cleared, the system reference re-taken for the free pool, and the
slot returned to the central unused list. -/
def pgaio_complete_ios_recycle (myAioId : Nat) (cur : PgAioInProgress) :
    CompleteDest :=
  if cur.user_referenced then
    (if cur.owner_id ≠ myAioId then
      .toForeignCompleted
        { cur with
            system_referenced := false,
            flags := { cur.flags with
                reaped := false,
                in_progress := false,
                done := true,
                foreign_done := true } }
    else
      .toLocalCompleted
        { cur with
            system_referenced := false,
            flags := { cur.flags with
                reaped := false,
                in_progress := false,
                done := true } })
  else
    .toUnused
      { cur with
          generation := cur.generation + 1,
          flags := flagsUnused,
          bb := false,
          type := .invalid,
          owner_id := INVALID_PGPROCNO,
          result := 0,
          system_referenced := true,
          has_on_completion_local := false }

/-- `pgaio_prepare_io`: moves an IDLE slot to IN_PROGRESS|PENDING, takes
the system reference, records the op type and owner, and enqueues the slot
on the owner's pending list. -/
def pgaio_prepare_io (myProcNo : Nat) (io : PgAioInProgress)
    (action : PgAioAction) : PgAioInProgress :=
  { io with
      flags := { io.flags with
          idle := false,
          in_progress := true,
          pending := true },
      system_referenced := true,
      type := action,
      owner_id := myProcNo }

/-- `pgaio_uring_io_from_cqe`: the drain writes the kernel result into the
slot and flips INFLIGHT → REAPED before pushing it onto the current
backend's reaped list; the references are untouched. -/
def pgaio_uring_io_from_cqe (io : PgAioInProgress) (res : Int) :
    PgAioInProgress :=
  { io with
      flags := { io.flags with inflight := false, reaped := true },
      result := res }

/-- A user-referenced reaped slot of backend 0 about to be recycled by its
own backend. -/
def c7Done : PgAioInProgress :=
  { type := .write_buffer,
    flags := { in_progress := true, reaped := true,
               shared_callback_called := true },
    user_referenced := true, system_referenced := true, owner_id := 0,
    result := 8192, generation := 3, has_on_completion_local := false,
    bb := false, nbytes := 8192 }

/-- The slot as `pgaio_complete_ios` pushes it onto local_completed. -/
def c7Routed : PgAioInProgress :=
  { type := .write_buffer,
    flags := { done := true, shared_callback_called := true },
    user_referenced := true, system_referenced := false, owner_id := 0,
    result := 8192, generation := 3, has_on_completion_local := false,
    bb := false, nbytes := 8192 }

/-- Claim C7 counterexample: the recycle phase of `pgaio_complete_ios`
clears `system_referenced` BEFORE pushing a still-user-referenced slot
onto local_completed (and likewise foreign_completed): the slot sits on
local_completed with `system_referenced = false`, contradicting the
stated invariant for those two lists. -/
theorem pgaio_complete_ios_recycle_counterexample :
    pgaio_complete_ios_recycle 0 c7Done = .toLocalCompleted c7Routed ∧
      c7Routed.system_referenced = false := by
  exact ⟨by decide, by decide⟩

/-- Claim C7 (amended): `system_referenced` is true whenever the slot is
on pending (taken by `pgaio_prepare_io` at enqueue), reaped (the drain
flips flags and result only) or issued_abandoned; but a slot routed to
foreign_completed or local_completed by `pgaio_complete_ios` has just had
its system reference dropped and is held there by its user reference
alone, and only a slot with no user reference is freed to UNUSED, which
re-takes the system reference for the free pool. -/
theorem pgaio_complete_ios_system_referenced :
    (∀ (p : Nat) (io : PgAioInProgress) (a : PgAioAction),
        (pgaio_prepare_io p io a).system_referenced = true) ∧
    (∀ (io : PgAioInProgress) (res : Int),
        (pgaio_uring_io_from_cqe io res).system_referenced =
          io.system_referenced) ∧
    (∀ (me : Nat) (cur s : PgAioInProgress),
        (pgaio_complete_ios_recycle me cur = .toForeignCompleted s ∨
          pgaio_complete_ios_recycle me cur = .toLocalCompleted s) →
        cur.user_referenced = true ∧ s.system_referenced = false ∧
          s.user_referenced = true) ∧
    (∀ (me : Nat) (cur s : PgAioInProgress),
        pgaio_complete_ios_recycle me cur = .toUnused s →
        cur.user_referenced = false ∧ s.system_referenced = true) := by
  refine ⟨fun p io a => rfl, fun io res => rfl, ?_, ?_⟩
  · intro me cur s h
    unfold pgaio_complete_ios_recycle at h
    cases hur : cur.user_referenced
    · rw [hur] at h
      rw [if_neg Bool.false_ne_true] at h
      rcases h with h | h <;> exact absurd h (by simp)
    · rw [hur] at h
      rw [if_pos rfl] at h
      by_cases how : cur.owner_id ≠ me
      · rw [if_pos how] at h
        rcases h with h | h
        · injection h with hs
          subst hs
          exact ⟨rfl, rfl, rfl⟩
        · exact absurd h (by simp)
      · rw [if_neg how] at h
        rcases h with h | h
        · exact absurd h (by simp)
        · injection h with hs
          subst hs
          exact ⟨rfl, rfl, rfl⟩
  · intro me cur s h
    unfold pgaio_complete_ios_recycle at h
    cases hur : cur.user_referenced
    · rw [hur] at h
      rw [if_neg Bool.false_ne_true] at h
      injection h with hs
      subst hs
      exact ⟨rfl, rfl⟩
    · rw [hur] at h
      rw [if_pos rfl] at h
      by_cases how : cur.owner_id ≠ me
      · rw [if_pos how] at h
        exact absurd h (by simp)
      · rw [if_neg how] at h
        exact absurd h (by simp)

theorem pgaio_complete_ios_system_referenced_witness :
    pgaio_complete_ios_recycle 1 c7Done =
        .toForeignCompleted
          { c7Routed with
              flags := { c7Routed.flags with foreign_done := true } } ∧
      c7Done.user_referenced = true ∧
      ({ c7Routed with
          flags := { c7Routed.flags with foreign_done := true } } :
        PgAioInProgress).system_referenced = false := by
  have hr : pgaio_complete_ios_recycle 1 c7Done =
      .toForeignCompleted
        { c7Routed with
            flags := { c7Routed.flags with foreign_done := true } } := by
    decide
  obtain ⟨h1, h2, -⟩ :=
    pgaio_complete_ios_system_referenced.2.2.1 1 c7Done _ (Or.inl hr)
  exact ⟨hr, h1, h2⟩

/-
  aio_iocp.c: the Windows completion-port driver.  This file belongs to a
  later generation of the AIO branch (op tags PGAIO_OP_*), so its
  submission path is modelled with its own op type.
  `pgaio_exchange_submit_one` and `pgaio_exchange_process_completion`
  belong to the exchange layer, whose source is not in this tree.
-/

/-- The op tags used by the completion-port driver (PGAIO_OP_*). -/
inductive IocpOp
  | invalid
  | nop
  | flush_range
  | fsync
  | read
  | write
  deriving Repr, DecidableEq

/-- Events observable on the completion-port submission path. -/
inductive IocpEvent
  | exchangeSubmitOne
  | completionRouted (result : Int)
  deriving Repr, DecidableEq

/-- Modelled from the spec: `pgaio_exchange_process_completion` (exchange
layer, source missing from this tree) routes the slot with the given
result through the normal completion path — "On failed non-pending
submission the driver processes the completion inline"; "Submission
failure: treated as an immediate completion with a negative result."
Recorded as a routed-completion event carrying the result. -/
def pgaio_exchange_process_completion (result : Int) : IocpEvent :=
  .completionRouted result

/-- `pgaio_iocp_process_completion`: decrements the current backend's
inflight counter and hands the result to the exchange layer's completion
processing. -/
def pgaio_iocp_process_completion (inflight : Nat) (result : Int) :
    Nat × IocpEvent :=
  (sub_u32 inflight, pgaio_exchange_process_completion result)

/-- `pgaio_iocp_submit_one`: increments the inflight counter, notifies the
exchange layer, and starts the read or write.  `startRw = none` models a
successful start (`pgaio_iocp_start_rw` returned 0), `some e` a start
that failed with errno `e` (returned -1 after `_dosmaperr`);
PGAIO_OP_INVALID sets rc = -1 with errno EOPNOTSUPP.  Any rc < 0 is
processed as an immediate inline completion with result -errno.  The
remaining op types hit `elog(ERROR, "unexpected op")` (`none`). -/
def pgaio_iocp_submit_one (inflight : Nat) (op : IocpOp)
    (startRw : Option Int) : Option (Nat × List IocpEvent) :=
  let inflight1 := add_u32 inflight 1
  match op with
  | .read | .write =>
    (match startRw with
     | none => some (inflight1, [.exchangeSubmitOne])
     | some e =>
       let r := pgaio_iocp_process_completion inflight1 (-e)
       some (r.1, [.exchangeSubmitOne, r.2]))
  | .invalid =>
    let r := pgaio_iocp_process_completion inflight1 (-EOPNOTSUPP)
    some (r.1, [.exchangeSubmitOne, r.2])
  | _ => none

/-- Claim C9: in the completion-port driver, a submission that fails
without entering the pending state is treated as an immediate completion
with a negative result: `pgaio_iocp_submit_one` passes -errno inline to
the completion-processing routine, which decrements the inflight counter
(so the counter is net unchanged across the failed submission) and routes
the slot through the normal completion path. -/
theorem pgaio_iocp_failed_submission_completes_inline :
    ∀ (inflight : Nat) (op : IocpOp) (e : Int),
      inflight < 2 ^ 32 →
      (op = .read ∨ op = .write) →
      pgaio_iocp_submit_one inflight op (some e) =
        some (inflight,
          [.exchangeSubmitOne, pgaio_exchange_process_completion (-e)]) := by
  intro inflight op e hlt hop
  rcases hop with h | h <;> subst h <;>
    simp [pgaio_iocp_submit_one, pgaio_iocp_process_completion,
      sub_u32_add_u32_one hlt]

theorem pgaio_iocp_failed_submission_completes_inline_witness :
    pgaio_iocp_submit_one 5 .read (some 13) =
      some (5,
        [.exchangeSubmitOne, pgaio_exchange_process_completion (-13)]) :=
  pgaio_iocp_failed_submission_completes_inline 5 .read 13 (by decide)
    (Or.inl rfl)

/-
  pgaio_can_be_combined / pgaio_combine_pending: staging-time merging.
  `sg` stands for pgaio_can_scatter_gather() (fixed by the driver mode).
  The read/write_buffer offsets are uint32 and the write_generic offset is
  uint64, so the adjacency sums are taken modulo the field width; buffer
  adjacency for buffer I/O is consecutive shared-buffer numbers
  (`last->buf + 1 == cur->buf`), for generic writes contiguous memory.
-/

/-- `pgaio_can_be_combined(last, cur)`; `none` models the
`elog(ERROR, "unexpected")` for PGAIO_INVALID. -/
def pgaio_can_be_combined (sg : Bool) (last cur : PgAioInProgress) :
    Option Bool :=
  if last.type ≠ cur.type then some false
  else if last.flags.retry ∨ cur.flags.retry then some false
  else
    match last.type with
    | .invalid => none
    | .read_buffer =>
      if last.fd ≠ cur.fd then some false
      else if (last.offset + last.nbytes) % 2 ^ 32 ≠ cur.offset then
        some false
      else if ¬sg ∧ last.buf + 1 ≠ cur.buf then some false
      else if last.mode ≠ cur.mode then some false
      else if last.already_done ≠ 0 ∨ cur.already_done ≠ 0 then some false
      else some true
    | .nop | .flush_range | .fsync | .fsync_wal => some false
    | .write_buffer =>
      if last.fd ≠ cur.fd then some false
      else if (last.offset + last.nbytes) % 2 ^ 32 ≠ cur.offset then
        some false
      else if ¬sg ∧ last.buf + 1 ≠ cur.buf then some false
      else if last.already_done ≠ 0 ∨ cur.already_done ≠ 0 then some false
      else some true
    | .write_wal =>
      -- Source: "FIXME: XLOG sometimes intentionally does smaller writes -
      -- this would undo that"; the checks after this return are dead code.
      some false
    | .write_generic =>
      if last.fd ≠ cur.fd then some false
      else if (last.offset + last.nbytes) % 2 ^ 64 ≠ cur.offset then
        some false
      else if ¬sg ∧ (last.bufdata + last.nbytes) % 2 ^ 64 ≠ cur.bufdata then
        some false
      else if last.already_done ≠ 0 ∨ cur.already_done ≠ 0 then some false
      else if last.no_reorder ∨ cur.no_reorder then some false
      else some true

/-- The amended claim's fusion condition, written from its words: same op
type, which must be a buffer read, buffer write or generic write (WAL
writes, fsyncs, flush-ranges and NOPs are never merged); same descriptor;
predecessor's offset+length equal to the successor's offset; no
already-done bytes on either; neither flagged RETRY; without
scatter/gather support the memory buffers must be adjacent; buffer reads
must additionally use the same read mode, and generic writes must not
carry a no_reorder flag. -/
def spec_can_combine (sg : Bool) (last cur : PgAioInProgress) : Bool :=
  decide (last.type = cur.type) &&
  (decide (last.type = .read_buffer) || decide (last.type = .write_buffer) ||
    decide (last.type = .write_generic)) &&
  decide (last.fd = cur.fd) &&
  (if last.type = .write_generic then
    decide ((last.offset + last.nbytes) % 2 ^ 64 = cur.offset)
  else decide ((last.offset + last.nbytes) % 2 ^ 32 = cur.offset)) &&
  decide (last.already_done = 0) && decide (cur.already_done = 0) &&
  !last.flags.retry && !cur.flags.retry &&
  (sg || (if last.type = .write_generic then
    decide ((last.bufdata + last.nbytes) % 2 ^ 64 = cur.bufdata)
  else decide (last.buf + 1 = cur.buf))) &&
  (!(decide (last.type = .read_buffer)) || decide (last.mode = cur.mode)) &&
  (!(decide (last.type = .write_generic)) ||
    (!last.no_reorder && !cur.no_reorder))

set_option maxHeartbeats 2000000 in
theorem pgaio_can_be_combined_iff_spec (sg : Bool)
    (last cur : PgAioInProgress) :
    pgaio_can_be_combined sg last cur = some true ↔
      spec_can_combine sg last cur = true := by
  unfold pgaio_can_be_combined spec_can_combine
  cases sg <;> cases hl : last.type <;> cases hc : cur.type <;>
    simp only [hl, hc] <;> simp <;> split_ifs <;> simp_all
  all_goals (intros; simp_all)

/-- The chain-building state of `pgaio_combine_pending`: `chains` are the
finished chains oldest-first, `cur` the chain being grown in REVERSE
order (empty iff the C loop's `last == NULL`, whose head is the loop's
`last`), `combined` the C loop's counter. -/
structure CombineState where
  chains : List (List PgAioInProgress)
  cur : List PgAioInProgress
  combined : Nat
  deriving Repr, DecidableEq

/-- The result of `pgaio_combine_pending`: `gaveUp` models the early
return taken when a pending entry already carries a merge link (only
possible after a failed partial submission), `err` the
`elog(ERROR, "unexpected")` reached through `pgaio_can_be_combined` on a
PGAIO_INVALID entry. -/
inductive CombineResult
  | ok (chains : List (List PgAioInProgress))
  | gaveUp (chains : List (List PgAioInProgress))
  | err
  deriving Repr, DecidableEq

/-- Close the chain under construction. -/
def combine_close (st : CombineState) : List (List PgAioInProgress) :=
  st.chains ++ (if st.cur = [] then [] else [st.cur.reverse])

/-- The `dlist_foreach` loop of `pgaio_combine_pending` over the pending
list, reported as the chains it builds through the `merge_with` links. -/
def pgaio_combine_go (sg : Bool) (st : CombineState) :
    List PgAioInProgress → CombineResult
  | [] => .ok (combine_close st)
  | c :: rest =>
    if c.merge_with_set then
      .gaveUp (combine_close st ++ (c :: rest).map (fun s => [s]))
    else
      match st.cur with
      | [] =>
        pgaio_combine_go sg
          { chains := st.chains, cur := [c], combined := st.combined } rest
      | lastSlot :: _ =>
        match pgaio_can_be_combined sg lastSlot c with
        | none => .err
        | some true =>
          if PGAIO_MAX_COMBINE ≤ st.combined + 1 then
            pgaio_combine_go sg
              { chains := st.chains ++ [(c :: st.cur).reverse], cur := [],
                combined := 1 } rest
          else
            pgaio_combine_go sg
              { chains := st.chains, cur := c :: st.cur,
                combined := st.combined + 1 } rest
        | some false =>
          pgaio_combine_go sg
            { chains := st.chains ++ [st.cur.reverse], cur := [c],
              combined := 1 } rest

/-- `pgaio_combine_pending`: the loop starts with `last = NULL` and
`combined = 1`. -/
def pgaio_combine_pending (sg : Bool) (slots : List PgAioInProgress) :
    CombineResult :=
  pgaio_combine_go sg { chains := [], cur := [], combined := 1 } slots

theorem pgaio_combine_go_bound (sg : Bool) (slots : List PgAioInProgress) :
    ∀ st : CombineState,
      (∀ ch ∈ st.chains, ch.length ≤ PGAIO_MAX_COMBINE) →
      (st.cur = [] → st.combined = 1) →
      (st.cur ≠ [] → st.cur.length = st.combined ∧ st.combined ≤ 15) →
      ∀ chains,
        (pgaio_combine_go sg st slots = .ok chains ∨
          pgaio_combine_go sg st slots = .gaveUp chains) →
        ∀ ch ∈ chains, ch.length ≤ PGAIO_MAX_COMBINE := by
  induction slots with
  | nil =>
    intro st h1 h2 h3 chains h ch hch
    have hcc : chains = combine_close st := by
      rcases h with h | h
      · rw [pgaio_combine_go] at h
        injection h with h
        exact h.symm
      · rw [pgaio_combine_go] at h
        exact absurd h (by simp)
    subst hcc
    unfold combine_close at hch
    rcases List.mem_append.mp hch with hmm | hmm
    · exact h1 ch hmm
    · by_cases hcur : st.cur = []
      · simp [hcur] at hmm
      · rw [if_neg hcur] at hmm
        obtain ⟨hlen, hle⟩ := h3 hcur
        simp only [List.mem_singleton] at hmm
        subst hmm
        rw [List.length_reverse]
        unfold PGAIO_MAX_COMBINE
        omega
  | cons c rest ih =>
    intro st h1 h2 h3 chains h ch hch
    have hclose : ∀ ch2 ∈ combine_close st,
        ch2.length ≤ PGAIO_MAX_COMBINE := by
      intro ch2 hch2
      unfold combine_close at hch2
      rcases List.mem_append.mp hch2 with hmm | hmm
      · exact h1 ch2 hmm
      · by_cases hcur : st.cur = []
        · simp [hcur] at hmm
        · rw [if_neg hcur] at hmm
          obtain ⟨hlen, hle⟩ := h3 hcur
          simp only [List.mem_singleton] at hmm
          subst hmm
          rw [List.length_reverse]
          unfold PGAIO_MAX_COMBINE
          omega
    rw [pgaio_combine_go] at h
    cases hm : c.merge_with_set
    · rw [hm, if_neg Bool.false_ne_true] at h
      cases hcur2 : st.cur with
      | nil =>
        rw [hcur2] at h
        simp only at h
        refine ih
          { chains := st.chains, cur := [c], combined := st.combined }
          h1 (by simp) (by simp [h2 hcur2]) chains ?_ ch hch
        exact h
      | cons lastSlot curRest =>
        obtain ⟨hlen, hle⟩ : st.cur.length = st.combined ∧
            st.combined ≤ 15 := h3 (by rw [hcur2]; simp)
        rw [hcur2] at h
        simp only at h
        cases hcomb : pgaio_can_be_combined sg lastSlot c with
        | none =>
          rw [hcomb] at h
          simp only at h
          rcases h with h | h <;> exact absurd h (by simp)
        | some b =>
          rw [hcomb] at h
          cases b
          · simp only at h
            refine ih
              { chains := st.chains ++ [st.cur.reverse],
                cur := [c],
                combined := 1 }
              ?_ (by simp) (by simp) chains ?_ ch hch
            · intro ch2 hch2
              rcases List.mem_append.mp hch2 with hmm | hmm
              · exact h1 ch2 hmm
              · simp only [List.mem_singleton] at hmm
                subst hmm
                rw [List.length_reverse]
                unfold PGAIO_MAX_COMBINE
                omega
            · rw [hcur2]
              exact h
          · simp only at h
            by_cases hlim : PGAIO_MAX_COMBINE ≤ st.combined + 1
            · rw [if_pos hlim] at h
              refine ih
                { chains := st.chains ++ [(c :: st.cur).reverse],
                  cur := [],
                  combined := 1 }
                ?_ (by simp) (by simp) chains ?_ ch hch
              · intro ch2 hch2
                rcases List.mem_append.mp hch2 with hmm | hmm
                · exact h1 ch2 hmm
                · simp only [List.mem_singleton] at hmm
                  subst hmm
                  rw [List.length_reverse]
                  simp only [List.length_cons]
                  unfold PGAIO_MAX_COMBINE
                  omega
              · rw [hcur2]
                exact h
            · rw [if_neg hlim] at h
              refine ih
                { chains := st.chains,
                  cur := c :: st.cur,
                  combined := st.combined + 1 }
                h1 (by simp) ?_ chains ?_ ch hch
              · intro hne
                constructor
                · simp [hlen]
                · show st.combined + 1 ≤ 15
                  unfold PGAIO_MAX_COMBINE at hlim
                  omega
              · rw [hcur2]
                exact h
    · rw [hm, if_pos rfl] at h
      have hcc : chains =
          combine_close st ++ (c :: rest).map (fun s => [s]) := by
        rcases h with h | h
        · exact absurd h (by simp)
        · injection h with h
          exact h.symm
      subst hcc
      rcases List.mem_append.mp hch with hmm | hmm
      · exact hclose ch hmm
      · simp only [List.mem_map] at hmm
        obtain ⟨sl, -, hs⟩ := hmm
        subst hs
        unfold PGAIO_MAX_COMBINE
        simp

/-- A pending buffer read at offset 0 into shared buffer 100, fd 7. -/
def c5a : PgAioInProgress :=
  { type := .read_buffer, flags := { in_progress := true, pending := true },
    user_referenced := true, system_referenced := true, owner_id := 0,
    result := 0, generation := 1, has_on_completion_local := false,
    bb := false, fd := 7, offset := 0, nbytes := 8192, buf := 100,
    mode := 0 }

/-- The adjacent read at offset 8192 into buffer 101, but with a different
read mode. -/
def c5b : PgAioInProgress :=
  { c5a with offset := 8192, buf := 101, mode := 1 }

/-- The adjacent read at offset 8192 into buffer 101, same mode. -/
def c5c : PgAioInProgress :=
  { c5a with offset := 8192, buf := 101 }

/-- Claim C5 counterexample: two adjacent pending buffer reads satisfying
every condition the claim lists (same op type and descriptor, adjacent
offsets, no already-done bytes, neither flagged RETRY, adjacent buffers)
are NOT fused when their read modes differ: `pgaio_can_be_combined` also
requires equal `mode`, and `pgaio_combine_pending` leaves them as two
singleton chains. -/
theorem pgaio_can_be_combined_mode_counterexample :
    pgaio_can_be_combined false c5a c5b = some false ∧
      c5a.type = c5b.type ∧ c5a.fd = c5b.fd ∧
      (c5a.offset + c5a.nbytes) % 2 ^ 32 = c5b.offset ∧
      c5a.already_done = 0 ∧ c5b.already_done = 0 ∧
      c5a.flags.retry = false ∧ c5b.flags.retry = false ∧
      c5a.buf + 1 = c5b.buf ∧
      pgaio_combine_pending false [c5a, c5b] = .ok [[c5a], [c5b]] := by
  exact ⟨by decide, by decide, by decide, by decide, by decide, by decide,
    by decide, by decide, by decide, by decide⟩

/-- Claim C5 (amended): two adjacent pending operations are fused into one
chain exactly when: same op type, which is a buffer read, buffer write or
generic write (WAL writes — and fsyncs, flush-ranges, NOPs — are never
merged); same file descriptor; predecessor's offset+length equals the
successor's offset; neither has already-done bytes; neither is flagged
RETRY; when the driver lacks scatter/gather the memory buffers are
adjacent; buffer reads additionally need the same read mode, and generic
writes must not carry no_reorder.  A chain never exceeds the fixed combine
limit (16), a new chain starting at the limit. -/
theorem pgaio_can_be_combined_exact :
    (∀ (sg : Bool) (last cur : PgAioInProgress),
        pgaio_can_be_combined sg last cur = some true ↔
          spec_can_combine sg last cur = true) ∧
    (∀ (sg : Bool) (slots : List PgAioInProgress)
        (chains : List (List PgAioInProgress)),
        (pgaio_combine_pending sg slots = .ok chains ∨
          pgaio_combine_pending sg slots = .gaveUp chains) →
        ∀ ch ∈ chains, ch.length ≤ PGAIO_MAX_COMBINE) := by
  constructor
  · exact pgaio_can_be_combined_iff_spec
  · intro sg slots chains h
    exact pgaio_combine_go_bound sg slots
      { chains := [], cur := [], combined := 1 }
      (by simp) (by simp) (by simp) chains h

theorem pgaio_can_be_combined_exact_witness :
    pgaio_can_be_combined false c5a c5c = some true ∧
      pgaio_combine_pending false [c5a, c5c] = .ok [[c5a, c5c]] ∧
      ([c5a, c5c] : List PgAioInProgress).length ≤ PGAIO_MAX_COMBINE := by
  refine ⟨?_, by decide, ?_⟩
  · exact (pgaio_can_be_combined_exact.1 false c5a c5c).mpr (by decide)
  · exact pgaio_can_be_combined_exact.2 false [c5a, c5c] [[c5a, c5c]]
      (Or.inl (by decide)) [c5a, c5c] (by simp)

/-
  pgaio_io_wait_ref: waiting on a generation-tagged handle.  The shared
  slot fields read by the function (flags, then generation, around a read
  barrier) can change concurrently, so the embedding consumes a trace of
  observations, one per read, and records the work the function performs
  between reads as an action list.  `havePendingAndCallLocal` stands for
  the loop's `my_aio->pending_count > 0 && call_local` test (taken as
  fixed here; the claim's path returns before consulting it).
-/

/-- One read of the slot's shared fields: `flags` then `generation`. -/
structure SlotObs where
  generation : Nat
  flags : PgAioIPFlags
  deriving Repr, DecidableEq

/-- The externally visible work of `pgaio_io_wait_ref`. -/
inductive WaitAction
  | submitPending
  | drain
  | waitOneDriver
  | cvPrepare
  | cvSleep
  | cvCancel
  | retryAndRewait
  | warnHardFailure
  | removeForeignCompleted
  | removeLocalCompleted
  | callLocalCallback
  deriving Repr, DecidableEq

/-- Why `pgaio_io_wait_ref` stopped. -/
inductive WaitResult
  | genChanged
  | returned
  | noTrace
  | noFuel
  deriving Repr, DecidableEq

/-- The `wait_ref_out` tail of `pgaio_io_wait_ref`: one more read; a
generation mismatch returns at once; SOFT_FAILURE retries and re-waits;
HARD_FAILURE prints a warning; otherwise the initiator, when asked to run
local callbacks and the local callback has not run, removes the slot from
foreign_completed (under its spinlock) or local_completed and calls the
local callback. -/
def pgaio_wait_ref_out (amOwner callLocal : Bool) (refGen : Nat) :
    List SlotObs → WaitResult × List WaitAction
  | [] => (.noTrace, [])
  | o :: _ =>
    if o.generation ≠ refGen then (.genChanged, [])
    else if o.flags.soft_failure then (.returned, [.retryAndRewait])
    else if o.flags.hard_failure then (.returned, [.warnHardFailure])
    else if amOwner ∧ callLocal ∧ ¬o.flags.local_callback_called then
      (if o.flags.foreign_done then
        (.returned, [.removeForeignCompleted, .callLocalCallback])
      else
        (.returned, [.removeLocalCompleted, .callLocalCallback]))
    else (.returned, [])

/-- The `while (true)` loop of `pgaio_io_wait_ref`.  Each iteration:
read (return on generation change, exit to wait_ref_out on DONE); drain
the driver; read again (same checks); then either submit this backend's
pending requests, or wait through the driver while the slot is INFLIGHT,
or prepare a condition-variable sleep, re-check with a third read, sleep
when it still matches and is not done, and cancel the sleep. -/
def pgaio_wait_loop (amOwner callLocal havePendingAndCallLocal : Bool)
    (refGen : Nat) :
    Nat → List SlotObs → WaitResult × List WaitAction
  | 0, _ => (.noFuel, [])
  | _ + 1, [] => (.noTrace, [])
  | fuel + 1, o1 :: t1 =>
    if o1.generation ≠ refGen then (.genChanged, [])
    else if o1.flags.done then pgaio_wait_ref_out amOwner callLocal refGen t1
    else
      match t1 with
      | [] => (.noTrace, [.drain])
      | o2 :: t2 =>
        if o2.generation ≠ refGen then (.genChanged, [.drain])
        else if o2.flags.done then
          (let r := pgaio_wait_ref_out amOwner callLocal refGen t2
           (r.1, .drain :: r.2))
        else if havePendingAndCallLocal then
          (let r := pgaio_wait_loop amOwner callLocal
            havePendingAndCallLocal refGen fuel t2
           (r.1, .drain :: .submitPending :: r.2))
        else if o2.flags.inflight then
          (let r := pgaio_wait_loop amOwner callLocal
            havePendingAndCallLocal refGen fuel t2
           (r.1, .drain :: .waitOneDriver :: r.2))
        else
          match t2 with
          | [] => (.noTrace, [.drain, .cvPrepare])
          | o3 :: t3 =>
            if o3.generation = refGen ∧ ¬o3.flags.done then
              (let r := pgaio_wait_loop amOwner callLocal
                havePendingAndCallLocal refGen fuel t3
               (r.1, .drain :: .cvPrepare :: .cvSleep :: .cvCancel :: r.2))
            else
              (let r := pgaio_wait_loop amOwner callLocal
                havePendingAndCallLocal refGen fuel t3
               (r.1, .drain :: .cvPrepare :: .cvCancel :: r.2))

/-- `pgaio_io_wait_ref` entry: one read of flags and generation; a
mismatch returns immediately; the initiator seeing PENDING submits its
pending work first; then the wait loop runs. -/
def pgaio_io_wait_ref (amOwner callLocal havePendingAndCallLocal : Bool)
    (refGen : Nat) (fuel : Nat) :
    List SlotObs → WaitResult × List WaitAction
  | [] => (.noTrace, [])
  | o :: t =>
    if o.generation ≠ refGen then (.genChanged, [])
    else if amOwner ∧ o.flags.pending then
      (let r := pgaio_wait_loop amOwner callLocal havePendingAndCallLocal
        refGen fuel t
       (r.1, .submitPending :: r.2))
    else pgaio_wait_loop amOwner callLocal havePendingAndCallLocal refGen
      fuel t

/-- Claim C6: for every handle passed to `pgaio_io_wait_ref`, if the
slot's current generation differs from the handle's generation at a check
— the entry check, a loop-top check, or the wait_ref_out check — the wait
returns immediately reporting the referenced operation completed
(`genChanged`) and performs nothing from that check on: no slot
modification, no drain, no submit, and no waiting on the slot's new
occupant (empty action list). -/
theorem pgaio_io_wait_ref_generation_mismatch :
    ∀ (amOwner callLocal hp : Bool) (refGen fuel : Nat)
      (o : SlotObs) (t : List SlotObs),
      o.generation ≠ refGen →
      pgaio_io_wait_ref amOwner callLocal hp refGen fuel (o :: t) =
          (.genChanged, []) ∧
        pgaio_wait_loop amOwner callLocal hp refGen (fuel + 1) (o :: t) =
          (.genChanged, []) ∧
        pgaio_wait_ref_out amOwner callLocal refGen (o :: t) =
          (.genChanged, []) := by
  intro amOwner callLocal hp refGen fuel o t h
  refine ⟨?_, ?_, ?_⟩
  · simp [pgaio_io_wait_ref, h]
  · simp [pgaio_wait_loop, h]
  · simp [pgaio_wait_ref_out, h]

theorem pgaio_io_wait_ref_generation_mismatch_witness :
    pgaio_io_wait_ref true true false 5 3
      [{ generation := 6, flags := { done := true } }] =
      (.genChanged, []) := by
  exact (pgaio_io_wait_ref_generation_mismatch true true false 5 3
    { generation := 6, flags := { done := true } } [] (by decide)).1

/-
  pgaio_apply_backend_limit and the max_submit computation of
  pgaio_submit_pending_internal.  The while loop re-reads the atomic
  inflight counter after each wait (and at the bottom of the loop body);
  the embedding consumes successive read values from `reads`.  The issued
  and issued_abandoned lists are taken as snapshots re-scanned by each
  iteration; list heads are the oldest entries (entries are pushed at the
  tail).
-/

/-- The waits `pgaio_apply_backend_limit` performs: on the first INFLIGHT
slot of the issued list, or — SharedAIOCtlLock held while capturing the
ref — on the first INFLIGHT slot of issued_abandoned. -/
inductive LimitWait
  | issued (idx : Nat)
  | abandoned (idx : Nat)
  deriving Repr, DecidableEq

/-- One iteration of `pgaio_apply_backend_limit`: while the inflight
count is at or above the cap, wait on the oldest INFLIGHT issued slot,
re-read the counter and stop if below the cap; otherwise scan
issued_abandoned under the central mutex for its oldest INFLIGHT slot
(re-looping without a wait when it has none) and wait on it; the counter
is re-read at the bottom of the loop body. -/
def pgaio_limit_body (cap : Nat)
    (issued issuedAbandoned : List PgAioInProgress)
    (recur : Nat → List Nat → Option Nat × List LimitWait)
    (current : Nat) (reads : List Nat) : Option Nat × List LimitWait :=
  if current < cap then (some current, [])
  else
    match issued.findIdx? (fun io => io.flags.inflight) with
    | some i =>
      (match reads with
       | [] => (none, [.issued i])
       | c :: reads2 =>
         if c < cap then (some c, [.issued i])
         else if issuedAbandoned ≠ [] then
           (match issuedAbandoned.findIdx? (fun io => io.flags.inflight) with
            | none =>
              (let r := recur c reads2
               (r.1, .issued i :: r.2))
            | some j =>
              match reads2 with
              | [] => (none, [.issued i, .abandoned j])
              | c2 :: reads3 =>
                (let r := recur c2 reads3
                 (r.1, .issued i :: .abandoned j :: r.2)))
         else
           match reads2 with
           | [] => (none, [.issued i])
           | c2 :: reads3 =>
             (let r := recur c2 reads3
              (r.1, .issued i :: r.2)))
    | none =>
      if issuedAbandoned ≠ [] then
        (match issuedAbandoned.findIdx? (fun io => io.flags.inflight) with
         | none => recur current reads
         | some j =>
           match reads with
           | [] => (none, [.abandoned j])
           | c2 :: reads2 =>
             (let r := recur c2 reads2
              (r.1, .abandoned j :: r.2)))
      else
        match reads with
        | [] => (none, [])
        | c2 :: reads2 => recur c2 reads2

/-- The fuel-indexed loop of `pgaio_apply_backend_limit`, iterating
`pgaio_limit_body`. -/
def pgaio_apply_backend_limit (cap : Nat)
    (issued issuedAbandoned : List PgAioInProgress) :
    Nat → Nat → List Nat → Option Nat × List LimitWait
  | 0, _, _ => (none, [])
  | fuel + 1, current, reads =>
    pgaio_limit_body cap issued issuedAbandoned
      (pgaio_apply_backend_limit cap issued issuedAbandoned fuel)
      current reads

/-- The submission batch bound of `pgaio_submit_pending_internal`:
`max_submit = Min(Min(pending_count, PGAIO_SUBMIT_BATCH_SIZE),
io_max_concurrency - inflight)`, computed after the limiter has brought
`inflight` below the cap. -/
def pgaio_max_submit (cap pendingCount inflight : Nat) : Nat :=
  min (min pendingCount PGAIO_SUBMIT_BATCH_SIZE) (cap - inflight)

theorem pgaio_apply_backend_limit_below_cap
    (cap : Nat) (issued issuedAbandoned : List PgAioInProgress) :
    ∀ (fuel current : Nat) (reads : List Nat) (final : Nat),
      (pgaio_apply_backend_limit cap issued issuedAbandoned fuel current
          reads).1 = some final →
      final < cap := by
  intro fuel
  induction fuel with
  | zero =>
    intro current reads final h
    simp [pgaio_apply_backend_limit] at h
  | succ n ih =>
    intro current reads final h
    rw [pgaio_apply_backend_limit] at h
    unfold pgaio_limit_body at h
    repeat' split at h
    all_goals try simp at h
    all_goals (first | omega | exact ih _ _ _ h)

/-- Claim C8: before each submission batch the backend enforces the
per-process inflight cap: when the limiter exits normally the re-read
counter is strictly below the cap; when the cap is reached the first wait
is on the oldest (first) INFLIGHT slot of the issued list, and only when
the issued list has none on the oldest INFLIGHT slot of issued_abandoned
(whose handle is captured under the central mutex); the counter is
re-read after each wait; and the subsequent batch size is capped at
cap - inflight, so submission never pushes the backend's own counter past
the cap. -/
theorem pgaio_apply_backend_limit_cap :
    (∀ (cap : Nat) (issued issuedAbandoned : List PgAioInProgress)
        (fuel current : Nat) (reads : List Nat) (final : Nat),
        (pgaio_apply_backend_limit cap issued issuedAbandoned fuel current
            reads).1 = some final →
        final < cap) ∧
    (∀ (cap : Nat) (issued issuedAbandoned : List PgAioInProgress)
        (fuel current : Nat) (reads : List Nat) (i : Nat),
        cap ≤ current →
        issued.findIdx? (fun io => io.flags.inflight) = some i →
        (pgaio_apply_backend_limit cap issued issuedAbandoned (fuel + 1)
            current reads).2.head? = some (.issued i)) ∧
    (∀ (cap : Nat) (issued issuedAbandoned : List PgAioInProgress)
        (fuel current : Nat) (reads : List Nat) (j : Nat),
        cap ≤ current →
        issued.findIdx? (fun io => io.flags.inflight) = none →
        issuedAbandoned.findIdx? (fun io => io.flags.inflight) = some j →
        (pgaio_apply_backend_limit cap issued issuedAbandoned (fuel + 1)
            current reads).2.head? = some (.abandoned j)) ∧
    (∀ (cap pendingCount inflight did : Nat),
        inflight < cap →
        did ≤ pgaio_max_submit cap pendingCount inflight →
        inflight + did ≤ cap) := by
  refine ⟨pgaio_apply_backend_limit_below_cap, ?_, ?_, ?_⟩
  · intro cap issued issuedAbandoned fuel current reads i hcap hfind
    rw [pgaio_apply_backend_limit]
    unfold pgaio_limit_body
    rw [if_neg (by omega), hfind]
    repeat' split
    all_goals first
      | rfl
      | simp_all
  · intro cap issued issuedAbandoned fuel current reads j hcap hfi hfa
    have hne : issuedAbandoned ≠ [] := by
      intro he
      rw [he] at hfa
      simp [List.findIdx?] at hfa
    rw [pgaio_apply_backend_limit]
    unfold pgaio_limit_body
    rw [if_neg (by omega), hfi, if_pos hne, hfa]
    repeat' split
    all_goals first
      | rfl
      | simp_all
  · intro cap pendingCount inflight did hlt hdid
    unfold pgaio_max_submit at hdid
    omega

theorem pgaio_apply_backend_limit_cap_witness :
    (pgaio_apply_backend_limit 2 [] [] 1 1 []).1 = some 1 ∧ 1 < 2 ∧
      (pgaio_apply_backend_limit 2 [c1Tail] [] 3 3 [1]).2.head? =
        some (.issued 0) ∧
      1 + pgaio_max_submit 2 5 1 ≤ 2 := by
  have h1 : (pgaio_apply_backend_limit 2 [] [] 1 1 []).1 = some 1 := by
    decide
  refine ⟨h1, ?_, ?_, ?_⟩
  · exact pgaio_apply_backend_limit_cap.1 2 [] [] 1 1 [] 1 h1
  · exact pgaio_apply_backend_limit_cap.2.1 2 [c1Tail] [] 2 3 [1] 0
      (by decide) (by decide)
  · exact pgaio_apply_backend_limit_cap.2.2.2 2 5 1
      (pgaio_max_submit 2 5 1) (by decide) le_rfl

end Aio
